import Mathlib

/-!
Verification of the multi-user AI chat backend (`src/backend`, `src/shared`).

The Python source is shallowly embedded:
* `shared/models.py` data classes become Lean structures;
* Redis sorted sets (the message store of `backend/chat_manager.py`) are
  modelled as lists of `(member, score)` pairs kept sorted by
  `(score, member)` — exactly Redis ordering: ascending score, ties broken
  by byte-wise lexicographic member order (identical to `String` order for
  the ASCII data used here);
* `datetime` timestamps are modelled as integer epoch values: the sorted-set
  score `timestamp.timestamp()` is the value itself and `isoformat()` is
  modelled by the decimal rendering (an injective stand-in — only equality
  of renderings for equal timestamps matters below);
* the stateful `ConnectionManager` of `backend/main.py` becomes explicit
  state passing over association lists (Python dicts keyed by id).
-/

namespace MultiChat

/-- `MessageType` from `shared/models.py`: `user`, `ai`, `system`. -/
inductive MessageType where
  | user
  | ai
  | system
deriving DecidableEq, Repr

/-- `MessageType.value` (the `str` payload of the enum). -/
def MessageType.value : MessageType → String
  | .user => "user"
  | .ai => "ai"
  | .system => "system"

/-- `ChatMessage` from `shared/models.py`.  `timestamp` is the epoch value
(see the file comment); `metadata` is the dict, as a key/value list. -/
structure ChatMessage where
  message_id : String
  chat_room_id : String
  sender_id : String
  sender_name : String
  content : String
  message_type : MessageType
  timestamp : Int
  metadata : List (String × String)
deriving DecidableEq, Repr

/-- `ChatRoom` from `shared/models.py` (fields used by the backend;
`created_at` is an epoch value, `active_users` is the unused default-empty
field and is kept for fidelity). -/
structure ChatRoom where
  room_id : String
  room_name : String
  description : Option String
  created_at : Int
  active_users : List String
  ai_enabled : Bool
  ai_personality : String
  ai_system_prompt : Option String
  ai_model : Option String
  created_by : Option String
  voice_readback_enabled : Bool
  voice_id : String
  is_private : Bool
  assigned_users : List String
deriving DecidableEq, Repr

/-- `Config.DEFAULT_ROOM_ID` from `shared/config.py`. -/
def DEFAULT_ROOM_ID : String := "general"

/-- `Config.MAX_CHAT_HISTORY` default from `shared/config.py`. -/
def MAX_CHAT_HISTORY : Nat := 100

/-- `ChatManager.can_user_access_room` from `backend/chat_manager.py`
(lines 391-411), translated clause by clause. -/
def can_user_access_room (room : ChatRoom) (user_id : String)
    (user_role : String) (is_kid : Bool) : Bool :=
  -- Admins can access any room
  if user_role = "admin" then true
  else if is_kid then
    -- kid accounts: the general room, or rooms they are assigned to
    if room.room_id = "general" then true
    else room.assigned_users.contains user_id
  else if !room.is_private then true
  else room.assigned_users.contains user_id

/-- The access rule as the spec phrases it (§4.3, priority order):
admin, then restricted-account rule, then privacy rule. -/
def can_access_spec (room : ChatRoom) (user_id : String)
    (user_role : String) (is_restricted : Bool) : Bool :=
  if user_role = "admin" then true
  else if is_restricted then
    room.room_id = DEFAULT_ROOM_ID || room.assigned_users.contains user_id
  else
    !room.is_private || room.assigned_users.contains user_id

/-- A private room with the given assignment list (other fields are the
model defaults from `shared/models.py`). -/
def privateRoom (assigned : List String) : ChatRoom :=
  { room_id := "secret", room_name := "Secret", description := none,
    created_at := 0, active_users := [], ai_enabled := true,
    ai_personality := "helpful", ai_system_prompt := none, ai_model := none,
    created_by := none, voice_readback_enabled := false,
    voice_id := "N2lVS1w4EtoT3dr4eOWO", is_private := true,
    assigned_users := assigned }

/-- The default room (`general`), public, no assignments. -/
def generalRoom : ChatRoom :=
  { room_id := "general", room_name := "General Chat",
    description := some "Default chat room for all users",
    created_at := 0, active_users := [], ai_enabled := true,
    ai_personality := "helpful", ai_system_prompt := none, ai_model := none,
    created_by := none, voice_readback_enabled := true,
    voice_id := "N2lVS1w4EtoT3dr4eOWO", is_private := false,
    assigned_users := [] }

end MultiChat

namespace MultiChat

/-- C1: `can_user_access_room` evaluates in priority order — admin always
true; else a restricted (kid) account gets access iff the room is the
default room or the user is assigned; else access iff the room is not
private or the user is assigned.  Concretely: a plain user reaches a
private room iff assigned, and a restricted account reaches the default
room with no assignment. -/
theorem C1_can_access_priority_order :
    (∀ (room : ChatRoom) (uid role : String) (kid : Bool),
      can_user_access_room room uid role kid = can_access_spec room uid role kid) ∧
    can_user_access_room (privateRoom ["U"]) "U" "user" false = true ∧
    can_user_access_room (privateRoom []) "U" "user" false = false ∧
    can_user_access_room generalRoom "U" "user" true = true := by
  refine ⟨?_, by decide, by decide, by decide⟩
  intro room uid role kid
  unfold can_user_access_room can_access_spec DEFAULT_ROOM_ID
  by_cases hadm : role = "admin" <;> cases kid <;>
    by_cases hg : room.room_id = "general" <;>
      cases h : room.is_private <;> simp [hadm, hg, h]

end MultiChat

namespace MultiChat

/-- `AI_TRIGGERS` from `shared/config.py`. -/
def AI_TRIGGERS : List String :=
  ["@ai", "@assistant", "@bot", "@styx", "hey ai", "hey styx", "ai help", "ai:"]

/-- Python `str.lower` on the character list (ASCII data). -/
def pyLower (s : List Char) : List Char := s.map Char.toLower

/-- The regex whitespace class over the ASCII range
(space, tab, newline, carriage return, vertical tab, form feed). -/
def reIsSpace (c : Char) : Bool :=
  c = ' ' || c = '\t' || c = '\n' || c = '\r' || c = '\x0b' || c = '\x0c'

/-- The regex word class over the ASCII range (letters, digits, underscore). -/
def reIsWord (c : Char) : Bool := c.isAlphanum || c = '_'

/-- The punctuation set of the lookahead in `should_trigger_ai_response`:
comma, period, exclamation, question mark, semicolon, colon. -/
def punctAfter (c : Char) : Bool :=
  c = ',' || c = '.' || c = '!' || c = '?' || c = ';' || c = ':'

/-- The lookahead of both trigger patterns: position `j` is end-of-string,
whitespace or one of the small punctuation set. -/
def followerOK (s : List Char) (j : Nat) : Bool :=
  match s.drop j with
  | [] => true
  | c :: _ => reIsSpace c || punctAfter c

/-- Whether the character at position `i` (if any) is a word character. -/
def wordAt (s : List Char) (i : Nat) : Bool :=
  match s.drop i with
  | [] => false
  | c :: _ => reIsWord c

/-- One match of the mention pattern
`(^|\s) trigger (?=\s|[,.!?;:]|$)` at position `i`:
start of string or whitespace before, the trigger verbatim, then the
lookahead. -/
def mentionHitAt (s t : List Char) (i : Nat) : Bool :=
  (match i with
   | 0 => true
   | j + 1 => (s.drop j).head?.any reIsSpace) &&
  t.isPrefixOf (s.drop i) &&
  followerOK s (i + t.length)

/-- One match of the phrase pattern `\b trigger (?=\s|[,.!?;:]|$)` at
position `i`: a word boundary before the trigger, the trigger verbatim,
then the lookahead. -/
def phraseHitAt (s t : List Char) (i : Nat) : Bool :=
  (match i with
   | 0 => wordAt s 0
   | j + 1 => wordAt s j != wordAt s (j + 1)) &&
  t.isPrefixOf (s.drop i) &&
  followerOK s (i + t.length)

/-- `should_trigger_ai_response` from `backend/main.py` (lines 343-366):
lowercase the content, then for each trigger search the mention pattern
when the trigger starts with `@`, the phrase pattern otherwise.
`re.search` scans every start position, embedded here as an existential
over positions `0..length`. -/
def should_trigger_ai_response (content : String) : Bool :=
  AI_TRIGGERS.any fun trig =>
    if (pyLower trig.data).head? = some '@' then
      (List.range ((pyLower content.data).length + 1)).any fun i =>
        mentionHitAt (pyLower content.data) (pyLower trig.data) i
    else
      (List.range ((pyLower content.data).length + 1)).any fun i =>
        phraseHitAt (pyLower content.data) (pyLower trig.data) i

end MultiChat

namespace MultiChat

/-- C2: trigger matching is case-insensitive, a mention-style trigger
matches only at string start or right after whitespace and only when
followed by whitespace, the small punctuation set, or end of string — so
a trigger embedded in a longer token never matches; with the configured
triggers, "Hey Styx, ..." triggers while "mystyx ..." and an email-like
"user@styx.com" do not. -/
theorem C2_trigger_detection :
    should_trigger_ai_response "Hey Styx, what\x27s up?" = true ∧
    should_trigger_ai_response "mystyx is cool" = false ∧
    should_trigger_ai_response "contact me at user@styx.com" = false ∧
    (∀ s t i, mentionHitAt s t i = true →
        (i = 0 ∨ ∃ c, (s.drop (i - 1)).head? = some c ∧ reIsSpace c = true) ∧
        followerOK s (i + t.length) = true ∧
        t.isPrefixOf (s.drop i) = true) ∧
    (∀ content, should_trigger_ai_response content = true ↔
        ∃ t ∈ AI_TRIGGERS, ∃ i < (pyLower content.data).length + 1,
          (if (pyLower t.data).head? = some '@' then
              mentionHitAt (pyLower content.data) (pyLower t.data) i
            else
              phraseHitAt (pyLower content.data) (pyLower t.data) i) = true) := by
  refine ⟨by decide, by decide, by decide, ?_, ?_⟩
  · intro s t i h
    unfold mentionHitAt at h
    simp only [Bool.and_eq_true] at h
    obtain ⟨⟨h1, h2⟩, h3⟩ := h
    refine ⟨?_, h3, h2⟩
    match i with
    | 0 => exact Or.inl rfl
    | j + 1 =>
      right
      have h1a : Option.any reIsSpace (s.drop j).head? = true := h1
      simp only [Nat.add_sub_cancel]
      cases hc : (s.drop j).head? with
      | none => rw [hc] at h1a; simp [Option.any] at h1a
      | some c =>
        rw [hc] at h1a
        simp only [Option.any] at h1a
        exact ⟨c, rfl, h1a⟩
  · intro content
    unfold should_trigger_ai_response
    rw [List.any_eq_true]
    constructor
    · rintro ⟨t, ht, hm⟩
      refine ⟨t, ht, ?_⟩
      by_cases hat : (pyLower t.data).head? = some '@'
      · rw [if_pos hat, List.any_eq_true] at hm
        obtain ⟨i, hi, hhit⟩ := hm
        exact ⟨i, List.mem_range.mp hi, by rw [if_pos hat]; exact hhit⟩
      · rw [if_neg hat, List.any_eq_true] at hm
        obtain ⟨i, hi, hhit⟩ := hm
        exact ⟨i, List.mem_range.mp hi, by rw [if_neg hat]; exact hhit⟩
    · rintro ⟨t, ht, i, hi, hhit⟩
      refine ⟨t, ht, ?_⟩
      by_cases hat : (pyLower t.data).head? = some '@'
      · rw [if_pos hat] at hhit
        rw [if_pos hat, List.any_eq_true]
        exact ⟨i, List.mem_range.mpr hi, hhit⟩
      · rw [if_neg hat] at hhit
        rw [if_neg hat, List.any_eq_true]
        exact ⟨i, List.mem_range.mpr hi, hhit⟩

/-- Witness for C2: the mention-pattern characterization applied at the
concrete match of "@styx" in " @styx!" (position 1, space before,
exclamation after). -/
theorem C2_trigger_detection_witness :
    mentionHitAt " @styx!".data "@styx".data 1 = true ∧
    ((1 : Nat) = 0 ∨ ∃ c, (" @styx!".data.drop 0).head? = some c ∧ reIsSpace c = true) ∧
    followerOK " @styx!".data (1 + "@styx".data.length) = true := by
  have h : mentionHitAt " @styx!".data "@styx".data 1 = true := by decide
  have h2 := C2_trigger_detection.2.2.2.1 " @styx!".data "@styx".data 1 h
  exact ⟨h, h2.1, h2.2.1⟩

end MultiChat

namespace MultiChat

/-- Association-list read: Python `dict.get` (first entry by key). -/
def alGet {β : Type} : List (String × β) → String → Option β
  | [], _ => none
  | e :: es, k => if e.1 == k then some e.2 else alGet es k

/-- Association-list write: Python `dict[k] = v` (replace in place, else
append). -/
def alSet {β : Type} (l : List (String × β)) (k : String) (v : β) :
    List (String × β) :=
  if l.any (fun e => e.1 == k) then
    l.map (fun e => if e.1 == k then (k, v) else e)
  else l ++ [(k, v)]

/-- Association-list delete: Python `dict.pop(k, None)` / `del`. -/
def alRemove {β : Type} (l : List (String × β)) (k : String) :
    List (String × β) :=
  l.filter (fun e => !(e.1 == k))

/-- One hex digit, lowercase, as `json.dumps` renders them. -/
def hexDigit (n : Nat) : Char :=
  if n < 10 then Char.ofNat (48 + n) else Char.ofNat (87 + n)

/-- Four hex digits of a `\uXXXX` escape. -/
def hex4 (n : Nat) : List Char :=
  [hexDigit (n / 4096 % 16), hexDigit (n / 256 % 16),
   hexDigit (n / 16 % 16), hexDigit (n % 16)]

/-- `json.dumps` escaping of one character (default `ensure_ascii=True`:
printable ASCII other than quote and backslash passes through, named
escapes for the common control characters, `\uXXXX` otherwise, surrogate
pairs beyond the basic plane). -/
def jsonEscapeChar (c : Char) : List Char :=
  if c = '"' then ['\\', '"']
  else if c = '\\' then ['\\', '\\']
  else if c = '\n' then ['\\', 'n']
  else if c = '\r' then ['\\', 'r']
  else if c = '\t' then ['\\', 't']
  else if c = '\x08' then ['\\', 'b']
  else if c = '\x0c' then ['\\', 'f']
  else if 32 ≤ c.toNat && c.toNat ≤ 126 then [c]
  else if c.toNat < 65536 then '\\' :: 'u' :: hex4 c.toNat
  else
    ('\\' :: 'u' :: hex4 (55296 + (c.toNat - 65536) / 1024)) ++
    ('\\' :: 'u' :: hex4 (56320 + (c.toNat - 65536) % 1024))

/-- A JSON string literal as `json.dumps` renders one. -/
def pyJsonStr (s : String) : String :=
  ⟨'"' :: (s.data.map jsonEscapeChar).flatten ++ ['"']⟩

/-- Stand-in for `datetime.isoformat()` on the modelled epoch timestamp
(injective rendering; see the file comment). -/
def tsIso (t : Int) : String := toString t

/-- `json.dumps` of the metadata dict (the value stored under the
`metadata` key of `message_data`). -/
def metadataJson (m : List (String × String)) : String :=
  match m with
  | [] => "\x7b\x7d"
  | _ =>
    "\x7b" ++
    String.intercalate ", "
      (m.map (fun kv => pyJsonStr kv.1 ++ ": " ++ pyJsonStr kv.2)) ++
    "\x7d"

/-- `json.dumps(message_data)` from `ChatManager.store_message`
(`backend/chat_manager.py` lines 170-183): the sorted-set member string,
keys in the dict's insertion order, default separators. -/
def serializeMessage (m : ChatMessage) : String :=
  "\x7b" ++
  "\"message_id\": " ++ pyJsonStr m.message_id ++ ", " ++
  "\"chat_room_id\": " ++ pyJsonStr m.chat_room_id ++ ", " ++
  "\"sender_id\": " ++ pyJsonStr m.sender_id ++ ", " ++
  "\"sender_name\": " ++ pyJsonStr m.sender_name ++ ", " ++
  "\"content\": " ++ pyJsonStr m.content ++ ", " ++
  "\"message_type\": " ++ pyJsonStr m.message_type.value ++ ", " ++
  "\"timestamp\": " ++ pyJsonStr (tsIso m.timestamp) ++ ", " ++
  "\"metadata\": " ++ pyJsonStr (metadataJson m.metadata) ++
  "\x7d"

/-- The sorted-set entry a stored message contributes: member =
serialized JSON, score = `timestamp.timestamp()`. -/
def entryOf (m : ChatMessage) : String × Int := (serializeMessage m, m.timestamp)

/-- A Redis sorted set: `(member, score)` entries kept in Redis rank
order — ascending score, score ties broken by lexicographic member
order. -/
abbrev ZSet := List (String × Int)

/-- Lexicographic order on character lists by code point — for the
ASCII data stored here this is exactly the byte-wise `memcmp` order Redis
uses on members. -/
def charsLt : List Char → List Char → Bool
  | [], [] => false
  | [], _ :: _ => true
  | _ :: _, [] => false
  | a :: as, b :: bs =>
    if a.toNat < b.toNat then true
    else if b.toNat < a.toNat then false
    else charsLt as bs

/-- Byte-wise member order on strings. -/
def strLt (a b : String) : Bool := charsLt a.data b.data

/-- Strict Redis rank order on sorted-set entries: ascending score, ties
broken by member order. -/
def zkeyLt (a b : String × Int) : Bool :=
  a.2 < b.2 || (a.2 = b.2 && strLt a.1 b.1)

/-- The sorted-set invariant: entries strictly increasing in rank order. -/
def ZSorted (z : ZSet) : Prop := z.Pairwise (fun a b => zkeyLt a b = true)

/-- Ordered insertion at the Redis rank position. -/
def zinsert : ZSet → (String × Int) → ZSet
  | [], e => [e]
  | x :: xs, e => if zkeyLt e x then e :: x :: xs else x :: zinsert xs e

/-- Redis `ZADD`: replace any entry with the same member, placing the
member at its rank position. -/
def zadd (z : ZSet) (member : String) (score : Int) : ZSet :=
  zinsert (z.filter (fun x => x.1 != member)) (member, score)

/-- Redis start-index normalization shared by rank-range commands: a
negative index counts from the end, then clamps at 0. -/
def redisStart (n start : Int) : Int :=
  max (if start < 0 then start + n else start) 0

/-- Redis stop-index normalization: a negative index counts from the
end, then clamps at the last rank; a stop before the (clamped) start
selects nothing. -/
def redisStop (n stop : Int) : Int :=
  min (if stop < 0 then stop + n else stop) (n - 1)

/-- Redis `ZREMRANGEBYRANK`: remove the ranks selected by the normalized
start/stop range. -/
def zremrangebyrank (z : ZSet) (start stop : Int) : ZSet :=
  if redisStart z.length start > redisStop z.length stop then z
  else
    z.take (redisStart z.length start).toNat ++
    z.drop (redisStop z.length stop + 1).toNat

/-- Redis `ZREVRANGE`: members only, highest rank first, the normalized
start/stop slice over the reversed ranking. -/
def zrevrangeMembers (z : ZSet) (start stop : Int) : List String :=
  if redisStart z.length start > redisStop z.length stop then []
  else
    (((z.map Prod.fst).reverse).drop (redisStart z.length start).toNat).take
      (redisStop z.length stop - redisStart z.length start + 1).toNat

/-- The per-room message storage touched by `ChatManager.store_message`:
the room's sorted set (`chat:messages:{room_id}`) and the per-message
hashes (`chat:message:{message_id}`, written with a 7-day expiry and read
back by `get_message`). -/
structure RoomStore where
  zset : ZSet
  byId : List (String × ChatMessage)

/-- The empty room storage. -/
def emptyStore : RoomStore := ⟨[], []⟩

/-- `ChatManager.store_message` (`backend/chat_manager.py` lines 165-198):
`ZADD` the serialized message with its timestamp score, then
`ZREMRANGEBYRANK 0 -(MAX_CHAT_HISTORY+1)`, then write the per-message
hash.  `maxHistory` is `Config.MAX_CHAT_HISTORY` (default 100). -/
def store_message (maxHistory : Nat) (st : RoomStore) (m : ChatMessage) :
    RoomStore :=
  { zset := zremrangebyrank (zadd st.zset (serializeMessage m) m.timestamp)
      0 (-(maxHistory + 1 : Int)),
    byId := alSet st.byId m.message_id m }

/-- `ChatManager.get_recent_messages` (`backend/chat_manager.py` lines
200-233): `ZREVRANGE 0 (limit-1)` then reverse into chronological order.
The JSON parse back into `ChatMessage` is the inverse of
`serializeMessage`, so the result is modelled as the list of serialized
messages. -/
def get_recent_messages (z : ZSet) (limit : Int) : List String :=
  (zrevrangeMembers z 0 (limit - 1)).reverse

/-- `ChatManager.get_message`: point lookup of the per-message hash. -/
def get_message (st : RoomStore) (message_id : String) : Option ChatMessage :=
  alGet st.byId message_id

/-- The newest `k` elements of a list (suffix of length `min k length`). -/
def lastN (k : Nat) (l : List α) : List α := l.drop (l.length - k)

end MultiChat

namespace MultiChat

/-- Two distinct messages with increasing timestamps. -/
def msgA : ChatMessage :=
  ⟨"idA", "general", "u1", "alice", "first", .user, 1000, []⟩

/-- Second stored message, newer timestamp. -/
def msgB : ChatMessage :=
  ⟨"idB", "general", "u2", "bob", "second", .user, 2000, []⟩

/-- Stored first; its serialization is lexicographically larger. -/
def msgTie1 : ChatMessage :=
  ⟨"zzz", "general", "u1", "alice", "later in lex", .user, 1000, []⟩

/-- Stored second, same timestamp, lexicographically smaller
serialization. -/
def msgTie2 : ChatMessage :=
  ⟨"aaa", "general", "u2", "bob", "earlier in lex", .user, 1000, []⟩

set_option maxRecDepth 100000 in
/-- C5 counterexample: with two messages stored (cap 100),
`get_recent_messages` with `limit = 0` returns both messages — Redis
translates `zrevrange(key, 0, -1)` into the whole range, so the result is
not "up to 0 messages"; and with cap 1, the trimmed-out oldest message is
still reachable by the id point lookup `get_message`, so it is not
unreachable by every read. -/
theorem C5_counterexample :
    (get_recent_messages
        (store_message 100 (store_message 100 emptyStore msgA) msgB).zset
        0).length = 2 ∧
    ((store_message 1 (store_message 1 emptyStore msgA) msgB).zset.map
        Prod.fst) = [serializeMessage msgB] ∧
    get_message (store_message 1 (store_message 1 emptyStore msgA) msgB)
        "idA" = some msgA := by
  refine ⟨by decide, by decide, by decide⟩

set_option maxRecDepth 100000 in
/-- C6 counterexample: two messages with identical timestamps are read
back in lexicographic order of their serialized members, not in insertion
order — the message inserted second (smaller serialization) comes first. -/
theorem C6_counterexample :
    msgTie1.timestamp = msgTie2.timestamp ∧
    serializeMessage msgTie1 ≠ serializeMessage msgTie2 ∧
    get_recent_messages
        (store_message 100 (store_message 100 emptyStore msgTie1)
          msgTie2).zset 10 =
      [serializeMessage msgTie2, serializeMessage msgTie1] ∧
    get_recent_messages
        (store_message 100 (store_message 100 emptyStore msgTie1)
          msgTie2).zset 10 ≠
      [serializeMessage msgTie1, serializeMessage msgTie2] := by
  refine ⟨rfl, by decide, by decide, by decide⟩

end MultiChat

namespace MultiChat

lemma char_eq_of_toNat_eq {a b : Char} (h : a.toNat = b.toNat) : a = b :=
  Char.eq_of_val_eq (UInt32.ext h)

lemma charsLt_trans : ∀ {a b c : List Char},
    charsLt a b = true → charsLt b c = true → charsLt a c = true := by
  intro a
  induction a with
  | nil =>
    intro b c h1 h2
    cases b with
    | nil => simp [charsLt] at h1
    | cons y ys =>
      cases c with
      | nil => simp [charsLt] at h2
      | cons z zs => simp [charsLt]
  | cons x xs ih =>
    intro b c h1 h2
    cases b with
    | nil => simp [charsLt] at h1
    | cons y ys =>
      cases c with
      | nil => simp [charsLt] at h2
      | cons z zs =>
        simp only [charsLt] at h1 h2 ⊢
        by_cases hxy : x.toNat < y.toNat
        · by_cases hyz : y.toNat < z.toNat
          · simp [show x.toNat < z.toNat by omega]
          · have hzy : ¬ z.toNat < y.toNat := by
              by_contra hzy
              simp [hyz, hzy] at h2
            simp [show x.toNat < z.toNat by omega]
        · have hyx : ¬ y.toNat < x.toNat := by
            by_contra hyx
            simp [hxy, hyx] at h1
          simp [hxy, hyx] at h1
          by_cases hyz : y.toNat < z.toNat
          · simp [show x.toNat < z.toNat by omega]
          · have hzy : ¬ z.toNat < y.toNat := by
              by_contra hzy
              simp [hyz, hzy] at h2
            simp [hyz, hzy] at h2
            simp [show ¬ x.toNat < z.toNat by omega,
                  show ¬ z.toNat < x.toNat by omega]
            exact ih h1 h2

lemma charsLt_asymm : ∀ {a b : List Char},
    charsLt a b = true → charsLt b a = false := by
  intro a
  induction a with
  | nil =>
    intro b h
    cases b with
    | nil => simp [charsLt] at h
    | cons y ys => simp [charsLt]
  | cons x xs ih =>
    intro b h
    cases b with
    | nil => simp [charsLt] at h
    | cons y ys =>
      simp only [charsLt] at h ⊢
      by_cases hxy : x.toNat < y.toNat <;> by_cases hyx : y.toNat < x.toNat <;>
        simp [hxy, hyx] at h ⊢ <;> first | omega | exact ih h

lemma charsLt_total : ∀ {a b : List Char}, a ≠ b →
    charsLt a b = true ∨ charsLt b a = true := by
  intro a
  induction a with
  | nil =>
    intro b h
    cases b with
    | nil => exact absurd rfl h
    | cons y ys => left; simp [charsLt]
  | cons x xs ih =>
    intro b h
    cases b with
    | nil => right; simp [charsLt]
    | cons y ys =>
      by_cases hxy : x.toNat < y.toNat
      · left; simp [charsLt, hxy]
      · by_cases hyx : y.toNat < x.toNat
        · right; simp [charsLt, hyx]
        · have hx : x = y := char_eq_of_toNat_eq (by omega)
          subst hx
          have hne : xs ≠ ys := fun he => h (by rw [he])
          rcases ih hne with h' | h'
          · left; simp [charsLt, hxy, hyx, h']
          · right; simp [charsLt, hxy, hyx, h']

lemma strLt_trans {a b c : String} (h1 : strLt a b = true) (h2 : strLt b c = true) :
    strLt a c = true := charsLt_trans h1 h2

lemma strLt_asymm {a b : String} (h : strLt a b = true) : strLt b a = false :=
  charsLt_asymm h

lemma strLt_total {a b : String} (h : a ≠ b) :
    strLt a b = true ∨ strLt b a = true := by
  refine charsLt_total fun hd => h ?_
  cases a; cases b
  exact congrArg String.mk (by simpa using hd)

lemma zkeyLt_iff {a b : String × Int} :
    zkeyLt a b = true ↔ a.2 < b.2 ∨ (a.2 = b.2 ∧ strLt a.1 b.1 = true) := by
  simp [zkeyLt, Bool.or_eq_true, Bool.and_eq_true, decide_eq_true_eq]

lemma zkeyLt_trans {a b c : String × Int}
    (h1 : zkeyLt a b = true) (h2 : zkeyLt b c = true) : zkeyLt a c = true := by
  rw [zkeyLt_iff] at h1 h2 ⊢
  rcases h1 with h1 | ⟨h1e, h1s⟩ <;> rcases h2 with h2 | ⟨h2e, h2s⟩
  · left; omega
  · left; omega
  · left; omega
  · right; exact ⟨by omega, strLt_trans h1s h2s⟩

lemma zkeyLt_asymm {a b : String × Int} (h : zkeyLt a b = true) :
    zkeyLt b a = false := by
  rw [zkeyLt_iff] at h
  by_contra hc
  rw [Bool.not_eq_false, zkeyLt_iff] at hc
  rcases h with h | ⟨he, hs⟩ <;> rcases hc with hc | ⟨hce, hcs⟩
  · omega
  · omega
  · omega
  · rw [strLt_asymm hs] at hcs; exact Bool.false_ne_true hcs

lemma zkeyLt_total_of_fst_ne {a b : String × Int} (h : a.1 ≠ b.1) :
    zkeyLt a b = true ∨ zkeyLt b a = true := by
  rcases lt_trichotomy a.2 b.2 with hlt | heq | hgt
  · left; rw [zkeyLt_iff]; left; exact hlt
  · rcases strLt_total h with hs | hs
    · left; rw [zkeyLt_iff]; right; exact ⟨heq, hs⟩
    · right; rw [zkeyLt_iff]; right; exact ⟨heq.symm, hs⟩
  · right; rw [zkeyLt_iff]; left; exact hgt

lemma mem_zinsert {z : ZSet} {e y : String × Int} :
    y ∈ zinsert z e ↔ y = e ∨ y ∈ z := by
  induction z with
  | nil => simp [zinsert]
  | cons x xs ih =>
    simp only [zinsert]
    split
    · simp [or_comm, or_assoc, or_left_comm]
    · simp [ih]
      tauto

lemma zinsert_sorted {e : String × Int} : ∀ {z : ZSet}, ZSorted z →
    (∀ x ∈ z, x.1 ≠ e.1) → ZSorted (zinsert z e) := by
  intro z
  induction z with
  | nil => intro _ _; simp [zinsert, ZSorted]
  | cons x xs ih =>
    intro hs hne
    rw [ZSorted, List.pairwise_cons] at hs
    obtain ⟨hx, hxs⟩ := hs
    simp only [zinsert]
    split
    case isTrue hlt =>
      rw [ZSorted, List.pairwise_cons]
      refine ⟨?_, List.pairwise_cons.mpr ⟨hx, hxs⟩⟩
      intro y hy
      rcases List.mem_cons.mp hy with rfl | hy
      · exact hlt
      · exact zkeyLt_trans hlt (hx y hy)
    case isFalse hnlt =>
      have hxe : zkeyLt x e = true := by
        rcases zkeyLt_total_of_fst_ne
            (fun he => hne x (List.mem_cons_self x xs) he) with h | h
        · exact h
        · exact absurd h (by simpa using hnlt)
      rw [ZSorted, List.pairwise_cons]
      constructor
      · intro y hy
        rcases mem_zinsert.mp hy with rfl | hy
        · exact hxe
        · exact hx y hy
      · exact ih hxs (fun a ha => hne a (List.mem_cons_of_mem x ha))

lemma zinsert_eq_append {e : String × Int} : ∀ {z : ZSet},
    (∀ x ∈ z, zkeyLt x e = true) → zinsert z e = z ++ [e] := by
  intro z
  induction z with
  | nil => intro _; simp [zinsert]
  | cons x xs ih =>
    intro h
    have hxe := h x (List.mem_cons_self x xs)
    simp only [zinsert]
    rw [if_neg (by simp [zkeyLt_asymm hxe])]
    rw [ih (fun a ha => h a (List.mem_cons_of_mem x ha))]
    simp

lemma filter_ne_eq_self {z : ZSet} {m : String}
    (h : ∀ x ∈ z, x.1 ≠ m) : z.filter (fun x => x.1 != m) = z := by
  rw [List.filter_eq_self]
  intro a ha
  simpa [bne_iff_ne] using h a ha

lemma zadd_sorted {z : ZSet} (m : String) (s : Int) (h : ZSorted z) :
    ZSorted (zadd z m s) := by
  unfold zadd
  refine zinsert_sorted (h.sublist (List.filter_sublist z)) ?_
  intro x hx
  have := (List.mem_filter.mp hx).2
  simpa [bne_iff_ne] using this

end MultiChat

namespace MultiChat

lemma redisStart_zero (n : Int) : redisStart n 0 = 0 := by
  unfold redisStart
  rw [if_neg (by omega)]
  omega

lemma zrem_trim (z : ZSet) (cap : Nat) :
    zremrangebyrank z 0 (-(cap + 1 : Int)) = z.rtake cap := by
  unfold zremrangebyrank List.rtake
  rw [redisStart_zero]
  have hstop : redisStop z.length (-(cap + 1 : Int)) =
      (z.length : Int) - cap - 1 := by
    unfold redisStop
    rw [if_pos (by omega)]
    omega
  rw [hstop]
  by_cases hc : z.length ≤ cap
  · rw [if_pos (by omega)]
    rw [Nat.sub_eq_zero_of_le hc, List.drop_zero]
  · rw [if_neg (by omega)]
    have h1 : ((0 : Int)).toNat = 0 := rfl
    have h2 : ((z.length : Int) - cap - 1 + 1).toNat = z.length - cap := by omega
    rw [h1, h2, List.take_zero, List.nil_append]

lemma get_recent_window (z : ZSet) (L : Int) (hL : 1 ≤ L) :
    get_recent_messages z L = (z.map Prod.fst).rtake L.toNat := by
  unfold get_recent_messages zrevrangeMembers
  rw [redisStart_zero]
  have hstop : redisStop z.length (L - 1) =
      min (L - 1) ((z.length : Int) - 1) := by
    unfold redisStop
    rw [if_neg (by omega)]
  rw [hstop]
  cases z with
  | nil =>
    rw [if_pos (by simp only [List.length_nil, Nat.cast_zero]; omega)]
    simp [List.rtake]
  | cons x xs =>
    have hlen : 1 ≤ (x :: xs).length := by simp
    rw [if_neg (by omega)]
    have h1 : ((0 : Int)).toNat = 0 := rfl
    have h2 : (min (L - 1) (((x :: xs).length : Int) - 1) - 0 + 1).toNat =
        min L.toNat (x :: xs).length := by omega
    rw [h1, h2, List.drop_zero]
    rw [← List.length_map (x :: xs) Prod.fst]
    generalize ((x :: xs).map Prod.fst) = members
    rw [List.rtake_eq_reverse_take_reverse]
    congr 1
    rw [← List.length_reverse members]
    generalize members.reverse = rev
    rcases Nat.le_total L.toNat rev.length with hle | hge
    · rw [min_eq_left hle]
    · rw [min_eq_right hge, List.take_length, List.take_of_length_le hge]

end MultiChat

namespace MultiChat

lemma rtake_rtake {α : Type} (l : List α) (k n : Nat) :
    (l.rtake n).rtake k = l.rtake (min k n) := by
  rw [List.rtake_eq_reverse_take_reverse, List.rtake_eq_reverse_take_reverse,
    List.rtake_eq_reverse_take_reverse]
  rw [List.reverse_reverse, List.take_take]

lemma rtake_concat_cap {α : Type} (l : List α) (x : α) (cap : Nat) :
    (l.rtake cap ++ [x]).rtake cap = (l ++ [x]).rtake cap := by
  cases cap with
  | zero => rw [List.rtake_zero, List.rtake_zero]
  | succ k =>
    rw [List.rtake_concat_succ, List.rtake_concat_succ, rtake_rtake]
    rw [min_eq_left (Nat.le_succ k)]

lemma map_rtake {α β : Type} (f : α → β) (l : List α) (k : Nat) :
    (l.rtake k).map f = (l.map f).rtake k := by
  unfold List.rtake
  rw [List.map_drop, List.length_map]

lemma store_message_zset (cap : Nat) (st : RoomStore) (m : ChatMessage) :
    (store_message cap st m).zset =
      (zadd st.zset (serializeMessage m) m.timestamp).rtake cap := by
  unfold store_message
  exact zrem_trim _ _

lemma store_fold (cap : Nat) (msgs : List ChatMessage)
    (hts : msgs.Pairwise fun a b => a.timestamp < b.timestamp)
    (hser : msgs.Pairwise fun a b => serializeMessage a ≠ serializeMessage b) :
    (msgs.foldl (store_message cap) emptyStore).zset =
      (msgs.rtake cap).map entryOf := by
  induction msgs using List.reverseRecOn with
  | nil => simp [emptyStore, List.rtake]
  | append_singleton ms m ih =>
    rw [List.pairwise_append] at hts hser
    obtain ⟨hts1, _, htscross⟩ := hts
    obtain ⟨hser1, _, hsercross⟩ := hser
    rw [List.foldl_append, List.foldl_cons, List.foldl_nil, store_message_zset,
      ih hts1 hser1]
    have hmem : ∀ x ∈ (ms.rtake cap).map entryOf, x.1 ≠ serializeMessage m := by
      intro x hx
      obtain ⟨a, ha, rfl⟩ := List.mem_map.mp hx
      have ham : a ∈ ms := List.drop_subset _ _ ha
      exact hsercross a ham m (List.mem_singleton_self m)
    have hlt : ∀ x ∈ (ms.rtake cap).map entryOf,
        zkeyLt x (serializeMessage m, m.timestamp) = true := by
      intro x hx
      obtain ⟨a, ha, rfl⟩ := List.mem_map.mp hx
      have ham : a ∈ ms := List.drop_subset _ _ ha
      rw [zkeyLt_iff]
      left
      exact htscross a ham m (List.mem_singleton_self m)
    unfold zadd
    rw [filter_ne_eq_self hmem, zinsert_eq_append hlt]
    have : (ms.rtake cap).map entryOf ++ [(serializeMessage m, m.timestamp)] =
        (ms.rtake cap ++ [m]).map entryOf := by
      rw [List.map_append]
      rfl
    rw [this, ← map_rtake, rtake_concat_cap]

lemma get_recent_subset (z : ZSet) (L : Int) {x : String}
    (hx : x ∈ get_recent_messages z L) : x ∈ z.map Prod.fst := by
  unfold get_recent_messages zrevrangeMembers at hx
  rw [List.mem_reverse] at hx
  split at hx
  · simp at hx
  · have h1 := List.take_subset _ _ hx
    have h2 := List.drop_subset _ _ h1
    exact List.mem_reverse.mp h2

lemma pairwise_take_drop {α : Type} {R : α → α → Prop} {l : List α}
    (h : l.Pairwise R) (k : Nat) :
    ∀ a ∈ l.take k, ∀ b ∈ l.drop k, R a b := by
  have hp : (l.take k ++ l.drop k).Pairwise R := by
    rw [List.take_append_drop]; exact h
  exact (List.pairwise_append.mp hp).2.2

end MultiChat

namespace MultiChat

/-- C5 (amended): for every limit L ≥ 1, `get_recent_messages` returns up
to L of the newest messages in ascending rank (chronological) order — the
suffix window of the room's ranked collection; each store trims the
collection to the newest C entries; hence when N messages with increasing
timestamps are stored and N > C, the oldest N − C never appear in any
`get_recent_messages` result.  (The unrestricted claim fails: limit 0
returns the whole retained window and trimmed messages stay readable via
`get_message` — see the counterexample.) -/
theorem C5_recent_window_and_retention :
    (∀ (z : ZSet) (L : Int), 1 ≤ L →
      get_recent_messages z L = (z.map Prod.fst).rtake L.toNat) ∧
    (∀ (cap : Nat) (st : RoomStore) (m : ChatMessage),
      (store_message cap st m).zset =
        (zadd st.zset (serializeMessage m) m.timestamp).rtake cap) ∧
    (∀ (cap : Nat) (msgs : List ChatMessage),
      msgs.Pairwise (fun a b => a.timestamp < b.timestamp) →
      msgs.Pairwise (fun a b => serializeMessage a ≠ serializeMessage b) →
      (msgs.foldl (store_message cap) emptyStore).zset =
          (msgs.rtake cap).map entryOf ∧
      ∀ m ∈ msgs.take (msgs.length - cap), ∀ L : Int,
        serializeMessage m ∉
          get_recent_messages
            (msgs.foldl (store_message cap) emptyStore).zset L) := by
  refine ⟨get_recent_window, store_message_zset, ?_⟩
  intro cap msgs hts hser
  refine ⟨store_fold cap msgs hts hser, ?_⟩
  intro m hm L hmem
  have h1 := get_recent_subset _ _ hmem
  rw [store_fold cap msgs hts hser, List.map_map] at h1
  have h2 : serializeMessage m ∈ (msgs.rtake cap).map serializeMessage := by
    simpa [Function.comp, entryOf] using h1
  obtain ⟨b, hb, hbe⟩ := List.mem_map.mp h2
  unfold List.rtake at hb
  exact pairwise_take_drop hser (msgs.length - cap) m hm b hb hbe.symm

set_option maxRecDepth 100000 in
/-- Witness for C5 (amended): two messages stored under cap 1 — the
retained collection is the newest single entry, and the older message no
longer appears in a `get_recent_messages` read with limit 50. -/
theorem C5_recent_window_and_retention_witness :
    ([msgA, msgB].foldl (store_message 1) emptyStore).zset =
      ([msgA, msgB].rtake 1).map entryOf ∧
    serializeMessage msgA ∉
      get_recent_messages
        ([msgA, msgB].foldl (store_message 1) emptyStore).zset 50 := by
  have h := C5_recent_window_and_retention.2.2 1 [msgA, msgB]
    (by decide) (by decide)
  exact ⟨h.1, h.2 msgA (by decide) 50⟩

/-- C6 (amended): the store maintains a deterministic total order — every
store keeps the collection sorted by (timestamp score, then byte-wise
lexicographic order of the serialized member), which is total on distinct
members and asymmetric, and every read with limit ≥ 1 returns a suffix
window of exactly that order; for identical timestamps the order is the
lexicographic order of the serialized messages, not the insertion
sequence. -/
theorem C6_deterministic_order_lex_ties :
    (∀ (cap : Nat) (st : RoomStore) (m : ChatMessage),
      ZSorted st.zset → ZSorted (store_message cap st m).zset) ∧
    (∀ a b : String × Int, a.1 ≠ b.1 →
      zkeyLt a b = true ∨ zkeyLt b a = true) ∧
    (∀ a b : String × Int, zkeyLt a b = true → zkeyLt b a = false) ∧
    (∀ a b : String × Int, a.2 = b.2 →
      (zkeyLt a b = true ↔ strLt a.1 b.1 = true)) ∧
    (∀ (z : ZSet) (L : Int), 1 ≤ L →
      get_recent_messages z L = (z.map Prod.fst).rtake L.toNat) := by
  refine ⟨?_, fun a b h => zkeyLt_total_of_fst_ne h,
    fun a b h => zkeyLt_asymm h, ?_, get_recent_window⟩
  · intro cap st m hs
    rw [store_message_zset]
    unfold List.rtake
    exact (zadd_sorted _ _ hs).sublist (List.drop_sublist _ _)
  · intro a b hab
    rw [zkeyLt_iff]
    constructor
    · rintro (h | ⟨_, h⟩)
      · omega
      · exact h
    · intro h
      right
      exact ⟨hab, h⟩

set_option maxRecDepth 100000 in
/-- Witness for C6 (amended): the tie pair — storing both keeps the
collection sorted, and the two equal-score entries are ordered by the
lexicographic order of their serializations. -/
theorem C6_deterministic_order_lex_ties_witness :
    ZSorted (store_message 100 (store_message 100 emptyStore msgTie1)
      msgTie2).zset ∧
    (zkeyLt (entryOf msgTie2) (entryOf msgTie1) = true ↔
      strLt (serializeMessage msgTie2) (serializeMessage msgTie1) = true) := by
  have h0 : ZSorted emptyStore.zset := List.Pairwise.nil
  have h1 := C6_deterministic_order_lex_ties.1 100 emptyStore msgTie1 h0
  have h2 := C6_deterministic_order_lex_ties.1 100 _ msgTie2 h1
  have h3 := C6_deterministic_order_lex_ties.2.2.2.1 (entryOf msgTie2)
    (entryOf msgTie1) (rfl)
  exact ⟨h2, h3⟩

end MultiChat

namespace MultiChat

/-- Stable ordered insert: the new element goes after every existing
element `y` with `le y x`. -/
def insertSorted {α : Type} (le : α → α → Bool) (x : α) : List α → List α
  | [] => [x]
  | y :: ys => if le y x then y :: insertSorted le x ys else x :: y :: ys

/-- Python's stable ascending sort (`list.sort(key=...)`), modelled as a
stable insertion sort over the comparison `le`. -/
def pySorted {α : Type} (le : α → α → Bool) (l : List α) : List α :=
  l.foldl (fun acc x => insertSorted le x acc) []

lemma mem_insertSorted {α : Type} {le : α → α → Bool} {x a : α} :
    ∀ {l : List α}, a ∈ insertSorted le x l ↔ a = x ∨ a ∈ l := by
  intro l
  induction l with
  | nil => simp [insertSorted]
  | cons y ys ih =>
    simp only [insertSorted]
    split
    · rw [List.mem_cons, ih, List.mem_cons]
      tauto
    · exact List.mem_cons

lemma insertSorted_sorted {α : Type} {le : α → α → Bool}
    (htrans : ∀ a b c, le a b = true → le b c = true → le a c = true)
    (htot : ∀ a b, (le a b || le b a) = true) (x : α) :
    ∀ {l : List α}, l.Pairwise (fun a b => le a b = true) →
      (insertSorted le x l).Pairwise (fun a b => le a b = true) := by
  intro l
  induction l with
  | nil => intro _; simp [insertSorted]
  | cons y ys ih =>
    intro hs
    rw [List.pairwise_cons] at hs
    obtain ⟨hy, hys⟩ := hs
    simp only [insertSorted]
    split
    case isTrue hxy =>
      rw [List.pairwise_cons]
      constructor
      · intro b hb
        rcases mem_insertSorted.mp hb with rfl | hb
        · exact hxy
        · exact hy b hb
      · exact ih hys
    case isFalse hxy =>
      have hle : le x y = true := by
        have := htot y x
        rw [Bool.or_eq_true] at this
        rcases this with h | h
        · exact absurd h hxy
        · exact h
      rw [List.pairwise_cons]
      constructor
      · intro b hb
        rcases List.mem_cons.mp hb with rfl | hb
        · exact hle
        · exact htrans x y b hle (hy b hb)
      · exact List.pairwise_cons.mpr ⟨hy, hys⟩

lemma mem_pySorted {α : Type} {le : α → α → Bool} {a : α} {l : List α} :
    a ∈ pySorted le l ↔ a ∈ l := by
  unfold pySorted
  suffices h : ∀ (l acc : List α),
      (a ∈ l.foldl (fun acc x => insertSorted le x acc) acc ↔ a ∈ acc ∨ a ∈ l) by
    rw [h l []]
    simp
  intro l
  induction l with
  | nil => intro acc; simp
  | cons x xs ih =>
    intro acc
    rw [List.foldl_cons, ih]
    simp [mem_insertSorted]
    tauto

lemma pySorted_sorted {α : Type} {le : α → α → Bool}
    (htrans : ∀ a b c, le a b = true → le b c = true → le a c = true)
    (htot : ∀ a b, (le a b || le b a) = true) (l : List α) :
    (pySorted le l).Pairwise (fun a b => le a b = true) := by
  unfold pySorted
  suffices h : ∀ (l acc : List α),
      acc.Pairwise (fun a b => le a b = true) →
      (l.foldl (fun acc x => insertSorted le x acc) acc).Pairwise
        (fun a b => le a b = true) by
    exact h l [] List.Pairwise.nil
  intro l
  induction l with
  | nil => intro acc hacc; simpa using hacc
  | cons x xs ih =>
    intro acc hacc
    rw [List.foldl_cons]
    exact ih _ (insertSorted_sorted htrans htot x hacc)

end MultiChat

namespace MultiChat

/-- `ConnectionInfo` from `shared/models.py`. -/
structure ConnectionInfo where
  user_id : String
  username : String
  room_id : String
  websocket_id : String
deriving DecidableEq, Repr

/-- Outbound traffic of the `ConnectionManager`: a room broadcast (with
an optional excluded user) or a direct send to one user.
`broadcast_to_room` fans out over a snapshot of the room's membership at
call time; events are modelled at the broadcast/send-call level. -/
inductive Event where
  | broadcast (room_id : String) (etype : String) (exclude : Option String)
  | send (user_id : String) (etype : String)
deriving DecidableEq, Repr

/-- The `ConnectionManager` state (`backend/main.py` lines 42-49):
`connections` (user_id → WebSocket, modelled by its websocket id),
`user_info` (user_id → ConnectionInfo) and `room_members`
(room_id → set of user_id, the Python set modelled as a duplicate-free
list). -/
structure CMState where
  connections : List (String × String)
  user_info : List (String × ConnectionInfo)
  room_members : List (String × List String)
deriving DecidableEq, Repr

/-- The initial `ConnectionManager()` state. -/
def emptyCM : CMState := ⟨[], [], []⟩

/-- A room's membership set (`self.room_members[room_id]`, empty when
absent). -/
def membersOf (s : CMState) (rid : String) : List String :=
  (alGet s.room_members rid).getD []

/-- The sort key of the human entries: lowercased username, compared by
code points (Python `sort(key=lambda x: x["username"].lower())`). -/
def usernameLe (a b : String × String) : Bool :=
  decide (String.mk (pyLower a.2.data) ≤ String.mk (pyLower b.2.data))

/-- `ConnectionManager.get_active_users_info` (lines 51-79): the
synthetic Styx entry first when the room's membership set is nonempty,
then the members that have a `user_info` record as (user_id, username)
pairs, sorted by lowercased username. -/
def get_active_users_info (s : CMState) (rid : String) :
    List (String × String) :=
  (if membersOf s rid ≠ [] then [("ai_styx", "Styx")] else []) ++
  pySorted usernameLe
    ((membersOf s rid).filterMap fun uid =>
      (alGet s.user_info uid).map fun info => (uid, info.username))

/-- `ConnectionManager.connect` (lines 81-145): store the connection and
its info (overwriting any prior entry for the same user_id), add the
user to the room's membership set, then emit `user_joined` to the others,
`connection_established` and the history replay (a loop of
`message_history` sends, modelled as one marker) to the joiner, and
`user_list_updated` to the whole room. -/
def cmConnect (s : CMState) (uid username rid wsid : String) :
    CMState × List Event :=
  ({ connections := alSet s.connections uid wsid
     user_info := alSet s.user_info uid ⟨uid, username, rid, wsid⟩
     room_members :=
       alSet s.room_members rid
         (if (membersOf s rid).contains uid then membersOf s rid
          else membersOf s rid ++ [uid]) },
   [Event.broadcast rid "user_joined" (some uid),
    Event.send uid "connection_established",
    Event.send uid "message_history",
    Event.broadcast rid "user_list_updated" none])

/-- `ConnectionManager.disconnect` (lines 147-182): a no-op unless the
user_id is present in `user_info`; otherwise remove the connection and
info entries, discard the user from their room's membership set (deleting
the room's entry when it empties), then broadcast `user_left` and
`user_list_updated` to that room. -/
def cmDisconnect (s : CMState) (uid : String) : CMState × List Event :=
  match alGet s.user_info uid with
  | none => (s, [])
  | some info =>
    ({ connections := alRemove s.connections uid
       user_info := alRemove s.user_info uid
       room_members :=
         if alGet s.room_members info.room_id = none then s.room_members
         else if (membersOf s info.room_id).erase uid = [] then
           alRemove s.room_members info.room_id
         else
           alSet s.room_members info.room_id
             ((membersOf s info.room_id).erase uid) },
     [Event.broadcast info.room_id "user_left" none,
      Event.broadcast info.room_id "user_list_updated" none])

/-- One inbound lifecycle operation on the registry. -/
inductive COp where
  | connect (uid username rid wsid : String)
  | disconnect (uid : String)

/-- Apply one operation. -/
def cmStep (s : CMState) : COp → CMState × List Event
  | .connect uid username rid wsid => cmConnect s uid username rid wsid
  | .disconnect uid => cmDisconnect s uid

/-- The registry state after a sequence of operations from startup. -/
def runCM (ops : List COp) : CMState :=
  ops.foldl (fun s op => (cmStep s op).1) emptyCM

/-- The spec's membership-mirror invariant: no room's membership set
contains a user_id without a `user_info` record tied to that room. -/
def MirrorInv (s : CMState) : Prop :=
  ∀ rid uid, uid ∈ membersOf s rid →
    ∃ info, alGet s.user_info uid = some info ∧ info.room_id = rid

/-- Membership sets are duplicate-free (Python sets). -/
def MembersNodup (s : CMState) : Prop :=
  ∀ e ∈ s.room_members, e.2.Nodup

/-- A connect is benign when the user is not connected or reconnects to
the room they are already in. -/
def connectOK (s : CMState) : COp → Prop
  | .connect uid _ rid _ =>
    ∀ info, alGet s.user_info uid = some info → info.room_id = rid
  | .disconnect _ => True

/-- Operation sequences whose connects are benign at the state where
they run. -/
inductive GoodRun : CMState → List COp → Prop
  | nil (s : CMState) : GoodRun s []
  | cons (s : CMState) (op : COp) (ops : List COp) :
      connectOK s op → GoodRun (cmStep s op).1 ops → GoodRun s (op :: ops)

end MultiChat

namespace MultiChat

lemma alSet_cons_ne {β : Type} {x : String × β} {k : String} (v : β)
    (xs : List (String × β)) (hx : (x.1 == k) = false) :
    alSet (x :: xs) k v = x :: alSet xs k v := by
  unfold alSet
  rw [List.any_cons, hx, Bool.false_or]
  split
  · rw [List.map_cons, if_neg (by simp_all)]
  · rw [List.cons_append]

lemma alGet_map_set_ne {β : Type} {k k' : String} (v : β)
    (h : (k == k') = false) :
    ∀ (l : List (String × β)),
      alGet (l.map fun e => if e.1 == k then (k, v) else e) k' = alGet l k' := by
  intro l
  induction l with
  | nil => rfl
  | cons y ys ih =>
    rw [List.map_cons]
    by_cases hy : (y.1 == k) = true
    · rw [if_pos hy]
      have hyk : y.1 = k := by simpa using hy
      simp only [alGet]
      rw [if_neg (by simp [h]), if_neg (by rw [hyk]; simp [h])]
      exact ih
    · rw [if_neg hy]
      simp only [alGet]
      by_cases hk : (y.1 == k') = true
      · rw [if_pos hk, if_pos hk]
      · rw [if_neg hk, if_neg hk]
        exact ih

end MultiChat

namespace MultiChat

lemma alGet_alSet_self {β : Type} (k : String) (v : β) :
    ∀ (l : List (String × β)), alGet (alSet l k v) k = some v := by
  intro l
  induction l with
  | nil => simp [alSet, alGet]
  | cons x xs ih =>
    by_cases hx : (x.1 == k) = true
    · unfold alSet
      rw [List.any_cons, hx, Bool.true_or, if_pos rfl, List.map_cons,
        if_pos hx]
      simp [alGet]
    · rw [alSet_cons_ne v xs (by simpa using hx)]
      simp only [alGet]
      rw [if_neg (by simp_all)]
      exact ih

lemma alGet_alSet_ne {β : Type} {k k' : String} (v : β) (h : k' ≠ k) :
    ∀ (l : List (String × β)), alGet (alSet l k v) k' = alGet l k' := by
  intro l
  have hkk : (k == k') = false := by
    simpa using fun he => h he.symm
  induction l with
  | nil =>
    simp [alSet, alGet, hkk]
  | cons x xs ih =>
    by_cases hx : (x.1 == k) = true
    · unfold alSet
      rw [List.any_cons, hx, Bool.true_or, if_pos rfl, List.map_cons,
        if_pos hx]
      simp only [alGet]
      rw [if_neg (by simp [hkk]), alGet_map_set_ne v hkk]
      have hxk : x.1 = k := by simpa using hx
      rw [if_neg (by rw [hxk]; simp [hkk])]
    · rw [alSet_cons_ne v xs (by simpa using hx)]
      simp only [alGet]
      by_cases hk : (x.1 == k') = true
      · rw [if_pos hk, if_pos hk]
      · rw [if_neg hk, if_neg hk]
        exact ih

lemma alGet_alRemove_self {β : Type} (k : String) :
    ∀ (l : List (String × β)), alGet (alRemove l k) k = none := by
  intro l
  induction l with
  | nil => rfl
  | cons x xs ih =>
    unfold alRemove at ih ⊢
    rw [List.filter_cons]
    by_cases hx : (x.1 == k) = true
    · rw [if_neg (by simp [hx])]
      exact ih
    · rw [if_pos (by simp [hx])]
      simp only [alGet]
      rw [if_neg hx]
      exact ih

lemma alGet_alRemove_ne {β : Type} {k k' : String} (h : k' ≠ k) :
    ∀ (l : List (String × β)), alGet (alRemove l k) k' = alGet l k' := by
  intro l
  induction l with
  | nil => rfl
  | cons x xs ih =>
    unfold alRemove at ih ⊢
    rw [List.filter_cons]
    by_cases hx : (x.1 == k) = true
    · rw [if_neg (by simp [hx])]
      simp only [alGet]
      have hxk : x.1 = k := by simpa using hx
      rw [if_neg (by rw [hxk]; simpa using fun he => h he.symm)]
      exact ih
    · rw [if_pos (by simp [hx])]
      simp only [alGet]
      by_cases hk : (x.1 == k') = true
      · rw [if_pos hk, if_pos hk]
      · rw [if_neg hk, if_neg hk]
        exact ih

lemma mem_alSet {β : Type} {k : String} {v : β} {e : String × β} :
    ∀ {l : List (String × β)}, e ∈ alSet l k v → e = (k, v) ∨ e ∈ l := by
  intro l he
  unfold alSet at he
  split at he
  · obtain ⟨a, ha, hae⟩ := List.mem_map.mp he
    by_cases hak : (a.1 == k) = true
    · rw [if_pos hak] at hae
      left; exact hae.symm
    · rw [if_neg hak] at hae
      right; exact hae ▸ ha
  · rcases List.mem_append.mp he with h | h
    · right; exact h
    · left; simpa using h

lemma mem_alRemove {β : Type} {k : String} {e : String × β}
    {l : List (String × β)} (he : e ∈ alRemove l k) : e ∈ l :=
  List.mem_of_mem_filter he

end MultiChat

namespace MultiChat

lemma alGet_mem {β : Type} {k : String} {v : β} :
    ∀ {l : List (String × β)}, alGet l k = some v → (k, v) ∈ l := by
  intro l
  induction l with
  | nil => intro h; simp [alGet] at h
  | cons x xs ih =>
    intro h
    simp only [alGet] at h
    split at h
    case isTrue hx =>
      obtain ⟨xk, xv⟩ := x
      have hxk : xk = k := by simpa using hx
      have hv : xv = v := by simpa using h
      subst hxk
      subst hv
      exact List.mem_cons_self _ _
    case isFalse hx =>
      right
      exact ih h

lemma membersOf_nodup {s : CMState} (h : MembersNodup s) (rid : String) :
    (membersOf s rid).Nodup := by
  unfold membersOf
  cases halGet : alGet s.room_members rid with
  | none => simp
  | some ms =>
    simp only [Option.getD_some]
    exact h (rid, ms) (alGet_mem halGet)

lemma inv_connect {s : CMState} {uid username rid wsid : String}
    (h : MembersNodup s ∧ MirrorInv s)
    (hok : ∀ info, alGet s.user_info uid = some info → info.room_id = rid) :
    MembersNodup (cmConnect s uid username rid wsid).1 ∧
    MirrorInv (cmConnect s uid username rid wsid).1 := by
  obtain ⟨hnd, hmir⟩ := h
  have hcurnd : (membersOf s rid).Nodup := membersOf_nodup hnd rid
  constructor
  · intro e he
    rcases mem_alSet he with rfl | he
    · split
      case isTrue => exact hcurnd
      case isFalse hc =>
        refine List.Nodup.append hcurnd (List.nodup_singleton uid) ?_
        intro a ha hb
        rw [List.mem_singleton] at hb
        subst hb
        exact hc (List.elem_eq_true_of_mem ha)
    · exact hnd e he
  · intro r u hu
    by_cases hueq : u = uid
    · subst hueq
      refine ⟨⟨u, username, rid, wsid⟩, alGet_alSet_self _ _ _, ?_⟩
      by_cases hreq : r = rid
      · rw [hreq]
      · exfalso
        have hmem : u ∈ membersOf s r := by
          unfold membersOf at hu ⊢
          simp only [cmConnect] at hu
          rwa [alGet_alSet_ne _ hreq] at hu
        obtain ⟨info, hinfo, hroom⟩ := hmir r u hmem
        exact hreq (hroom ▸ hok info hinfo)
    · have hlook : alGet (cmConnect s uid username rid wsid).1.user_info u =
          alGet s.user_info u := by
        simp only [cmConnect]
        exact alGet_alSet_ne _ hueq _
      by_cases hreq : r = rid
      · subst hreq
        have hu' : u ∈ membersOf s r := by
          unfold membersOf at hu
          simp only [cmConnect] at hu
          rw [alGet_alSet_self] at hu
          simp only [Option.getD_some] at hu
          split at hu
          · exact hu
          · rcases List.mem_append.mp hu with h1 | h1
            · exact h1
            · exact absurd (List.mem_singleton.mp h1) hueq
        obtain ⟨info, hinfo, hroom⟩ := hmir r u hu'
        exact ⟨info, hlook ▸ hinfo, hroom⟩
      · have hu' : u ∈ membersOf s r := by
          unfold membersOf at hu ⊢
          simp only [cmConnect] at hu
          rwa [alGet_alSet_ne _ hreq] at hu
        obtain ⟨info, hinfo, hroom⟩ := hmir r u hu'
        exact ⟨info, hlook ▸ hinfo, hroom⟩

end MultiChat

namespace MultiChat

lemma inv_disconnect {s : CMState} {uid : String}
    (h : MembersNodup s ∧ MirrorInv s) :
    MembersNodup (cmDisconnect s uid).1 ∧
    MirrorInv (cmDisconnect s uid).1 := by
  obtain ⟨hnd, hmir⟩ := h
  cases hlook : alGet s.user_info uid with
  | none =>
    simp only [cmDisconnect, hlook]
    exact ⟨hnd, hmir⟩
  | some info =>
    simp only [cmDisconnect, hlook]
    constructor
    · -- MembersNodup
      intro e he
      simp only at he
      split at he
      · exact hnd e he
      · split at he
        · exact hnd e (mem_alRemove he)
        · rcases mem_alSet he with rfl | he
          · exact (membersOf_nodup hnd info.room_id).erase uid
          · exact hnd e he
    · -- MirrorInv
      intro r u hu
      simp only [membersOf] at hu
      by_cases hueq : u = uid
      · subst hueq
        exfalso
        split at hu
        next hnone =>
          by_cases hreq : r = info.room_id
          · subst hreq
            rw [hnone] at hu
            simp at hu
          · obtain ⟨info', hinfo', hroom'⟩ := hmir r u hu
            rw [hlook] at hinfo'
            have : info' = info := by simpa using hinfo'.symm
            subst this
            exact hreq hroom'.symm
        next hsome =>
          split at hu
          next hempty =>
            by_cases hreq : r = info.room_id
            · subst hreq
              rw [alGet_alRemove_self] at hu
              simp at hu
            · rw [alGet_alRemove_ne hreq] at hu
              obtain ⟨info', hinfo', hroom'⟩ := hmir r u hu
              rw [hlook] at hinfo'
              have : info' = info := by simpa using hinfo'.symm
              subst this
              exact hreq hroom'.symm
          next hne =>
            by_cases hreq : r = info.room_id
            · subst hreq
              rw [alGet_alSet_self] at hu
              simp only [Option.getD_some] at hu
              exact (membersOf_nodup hnd info.room_id).not_mem_erase hu
            · rw [alGet_alSet_ne _ hreq _] at hu
              obtain ⟨info', hinfo', hroom'⟩ := hmir r u hu
              rw [hlook] at hinfo'
              have : info' = info := by simpa using hinfo'.symm
              subst this
              exact hreq hroom'.symm
      · have hget : alGet (alRemove s.user_info uid) u = alGet s.user_info u :=
          alGet_alRemove_ne hueq _
        have hmem : u ∈ membersOf s r := by
          unfold membersOf
          split at hu
          · exact hu
          · split at hu
            · by_cases hreq : r = info.room_id
              · subst hreq
                rw [alGet_alRemove_self] at hu
                simp at hu
              · rwa [alGet_alRemove_ne hreq] at hu
            · by_cases hreq : r = info.room_id
              · subst hreq
                rw [alGet_alSet_self] at hu
                simp only [Option.getD_some] at hu
                exact List.mem_of_mem_erase hu
              · rwa [alGet_alSet_ne _ hreq _] at hu
        obtain ⟨info', hinfo', hroom'⟩ := hmir r u hmem
        exact ⟨info', hget ▸ hinfo', hroom'⟩

end MultiChat

namespace MultiChat

lemma alSet_keys {β : Type} (k : String) (v : β) (l : List (String × β)) :
    (alSet l k v).map Prod.fst =
      if l.any (fun e => e.1 == k) then l.map Prod.fst
      else l.map Prod.fst ++ [k] := by
  unfold alSet
  split
  · rw [List.map_map]
    apply List.map_congr_left
    intro e _
    simp only [Function.comp_apply]
    by_cases hek : (e.1 == k) = true
    · rw [if_pos hek]
      exact (by simpa using hek : e.1 = k).symm
    · rw [if_neg hek]
  · rw [List.map_append]
    rfl

lemma any_key_eq {β : Type} (k : String) (l : List (String × β)) :
    l.any (fun e => e.1 == k) = (l.map Prod.fst).any (fun x => x == k) := by
  induction l with
  | nil => rfl
  | cons x xs ih => rw [List.any_cons, List.map_cons, List.any_cons, ih]

lemma alRemove_keys {β : Type} (k : String) (l : List (String × β)) :
    (alRemove l k).map Prod.fst =
      (l.map Prod.fst).filter (fun x => !(x == k)) := by
  unfold alRemove
  induction l with
  | nil => rfl
  | cons x xs ih =>
    rw [List.filter_cons, List.map_cons, List.filter_cons]
    by_cases hx : (x.1 == k) = true
    · rw [if_neg (by simp [hx]), if_neg (by simp [hx])]
      exact ih
    · rw [if_pos (by simp [hx]), if_pos (by simp [hx]), List.map_cons, ih]

/-- At most one live Connection per user_id: the registry's key lists are
duplicate-free and the connection and info maps are keyed identically. -/
def UniqInv (s : CMState) : Prop :=
  (s.connections.map Prod.fst).Nodup ∧
  s.connections.map Prod.fst = s.user_info.map Prod.fst

lemma uniq_step (s : CMState) (op : COp) (h : UniqInv s) :
    UniqInv (cmStep s op).1 := by
  obtain ⟨hnd, heq⟩ := h
  cases op with
  | connect uid username rid wsid =>
    simp only [cmStep, cmConnect]
    have hany : s.connections.any (fun e => e.1 == uid) =
        s.user_info.any (fun e => e.1 == uid) := by
      rw [any_key_eq, any_key_eq, heq]
    constructor
    · rw [alSet_keys]
      split
      next => exact hnd
      next hno =>
        refine List.Nodup.append hnd (List.nodup_singleton uid) ?_
        intro a ha hb
        rw [List.mem_singleton] at hb
        subst hb
        rw [any_key_eq] at hno
        exact hno (List.any_eq_true.mpr ⟨a, ha, by simp⟩)
    · rw [alSet_keys, alSet_keys, hany, heq]
  | disconnect uid =>
    simp only [cmStep]
    cases hlook : alGet s.user_info uid with
    | none =>
      simp only [cmDisconnect, hlook]
      exact ⟨hnd, heq⟩
    | some info =>
      simp only [cmDisconnect, hlook]
      constructor
      · rw [alRemove_keys]
        exact hnd.filter _
      · rw [alRemove_keys, alRemove_keys, heq]

lemma uniq_run (ops : List COp) : ∀ s, UniqInv s →
    UniqInv (ops.foldl (fun s op => (cmStep s op).1) s) := by
  induction ops with
  | nil => intro s h; exact h
  | cons op ops ih =>
    intro s h
    exact ih _ (uniq_step s op h)

lemma inv_step (s : CMState) (op : COp)
    (h : MembersNodup s ∧ MirrorInv s) (hok : connectOK s op) :
    MembersNodup (cmStep s op).1 ∧ MirrorInv (cmStep s op).1 := by
  cases op with
  | connect uid username rid wsid => exact inv_connect h hok
  | disconnect uid => exact inv_disconnect h

lemma inv_run : ∀ (ops : List COp) (s : CMState),
    MembersNodup s ∧ MirrorInv s → GoodRun s ops →
    MembersNodup (ops.foldl (fun s op => (cmStep s op).1) s) ∧
    MirrorInv (ops.foldl (fun s op => (cmStep s op).1) s) := by
  intro ops
  induction ops with
  | nil =>
    intro s h _
    exact h
  | cons op ops ih =>
    intro s h hg
    cases hg with
    | cons _ _ _ hok hrest =>
      exact ih _ (inv_step s op h hok) hrest

end MultiChat

namespace MultiChat

/-- The reconnect-to-a-different-room operation sequence: user A connects
to room1, then (without disconnecting) connects to room2. -/
def staleOps : List COp :=
  [COp.connect "A" "alice" "room1" "w1", COp.connect "A" "alice" "room2" "w2"]

end MultiChat

namespace MultiChat

/-- C3 counterexample: after user A connects to room1 and then reconnects
to room2, room1's membership set still contains A while A's only live
Connection is to room2 — the membership-mirror invariant is violated. -/
theorem C3_counterexample :
    membersOf (runCM staleOps) "room1" = ["A"] ∧
    alGet (runCM staleOps).user_info "A" =
      some ⟨"A", "alice", "room2", "w2"⟩ ∧
    ¬ MirrorInv (runCM staleOps) := by
  refine ⟨by decide, by decide, ?_⟩
  intro h
  obtain ⟨info, hinfo, hroom⟩ := h "room1" "A" (by decide)
  have h2 : alGet (runCM staleOps).user_info "A" =
      some ⟨"A", "alice", "room2", "w2"⟩ := by decide
  rw [h2] at hinfo
  have h3 : info = ⟨"A", "alice", "room2", "w2"⟩ := by
    simpa using hinfo.symm
  rw [h3] at hroom
  exact absurd hroom (by decide)

/-- C3 (amended): after every operation sequence each user_id has at most
one registry entry (the key lists of the connection and info maps are
duplicate-free and identical, and a reconnect overwrites the prior
websocket handle); the membership-mirror invariant holds after every
sequence whose connects are benign — each connect is for a fresh user or
for the room the user is already in.  A reconnect to a different room
breaks the mirror (see the counterexample). -/
theorem C3_registry_invariants :
    (∀ ops : List COp,
      ((runCM ops).connections.map Prod.fst).Nodup ∧
      (runCM ops).connections.map Prod.fst =
        (runCM ops).user_info.map Prod.fst) ∧
    (∀ (s : CMState) (uid username rid wsid : String),
      alGet (cmConnect s uid username rid wsid).1.connections uid =
        some wsid) ∧
    (∀ ops : List COp, GoodRun emptyCM ops → MirrorInv (runCM ops)) := by
  refine ⟨?_, ?_, ?_⟩
  · intro ops
    exact uniq_run ops emptyCM ⟨List.nodup_nil, rfl⟩
  · intro s uid username rid wsid
    simp only [cmConnect]
    exact alGet_alSet_self _ _ _
  · intro ops hg
    refine (inv_run ops emptyCM ⟨?_, ?_⟩ hg).2
    · intro e he
      simp [emptyCM] at he
    · intro r u hu
      simp [membersOf, emptyCM, alGet] at hu

/-- Witness for C3 (amended): connect then disconnect is a benign
sequence and the mirror invariant holds in its final state. -/
theorem C3_registry_invariants_witness :
    GoodRun emptyCM [COp.connect "A" "alice" "room1" "w1",
      COp.disconnect "A"] ∧
    MirrorInv (runCM [COp.connect "A" "alice" "room1" "w1",
      COp.disconnect "A"]) := by
  have hg : GoodRun emptyCM [COp.connect "A" "alice" "room1" "w1",
      COp.disconnect "A"] := by
    refine GoodRun.cons _ _ _ ?_ (GoodRun.cons _ _ _ trivial (GoodRun.nil _))
    intro info hinfo
    simp [emptyCM, alGet] at hinfo
  exact ⟨hg, C3_registry_invariants.2.2 _ hg⟩

end MultiChat

namespace MultiChat

lemma cmDisconnect_absent {s : CMState} {uid : String}
    (h : alGet s.user_info uid = none) : cmDisconnect s uid = (s, []) := by
  simp [cmDisconnect, h]

/-- Number of `user_left` broadcasts in an event trace. -/
def user_left_count (evs : List Event) : Nat :=
  (evs.filter fun e =>
    match e with
    | Event.broadcast _ t _ => t == "user_left"
    | Event.send _ _ => false).length

/-- C8: `disconnect` is idempotent — for an absent user_id it is a no-op,
and on a present user_id the first call emits exactly one `user_left`
broadcast, removes the Connection, the info record and (given set-valued
memberships) the membership entry, while a second call for the same
user_id changes nothing and emits nothing. -/
theorem C8_disconnect_idempotent :
    (∀ (s : CMState) (uid : String), alGet s.user_info uid = none →
      cmDisconnect s uid = (s, [])) ∧
    (∀ (s : CMState) (uid : String) (info : ConnectionInfo),
      alGet s.user_info uid = some info →
      user_left_count (cmDisconnect s uid).2 = 1 ∧
      alGet (cmDisconnect s uid).1.connections uid = none ∧
      alGet (cmDisconnect s uid).1.user_info uid = none ∧
      (MembersNodup s →
        uid ∉ membersOf (cmDisconnect s uid).1 info.room_id) ∧
      cmDisconnect (cmDisconnect s uid).1 uid =
        ((cmDisconnect s uid).1, [])) := by
  constructor
  · intro s uid h
    exact cmDisconnect_absent h
  · intro s uid info h
    have h1 : (cmDisconnect s uid).1.user_info = alRemove s.user_info uid := by
      simp [cmDisconnect, h]
    refine ⟨?_, ?_, ?_, ?_, ?_⟩
    · simp [cmDisconnect, h, user_left_count]
    · have : (cmDisconnect s uid).1.connections =
          alRemove s.connections uid := by
        simp [cmDisconnect, h]
      rw [this]
      exact alGet_alRemove_self _ _
    · rw [h1]
      exact alGet_alRemove_self _ _
    · intro hnd hmem
      simp only [cmDisconnect, h, membersOf] at hmem
      split at hmem
      next hnone =>
        rw [hnone] at hmem
        simp at hmem
      next hsome =>
        split at hmem
        next =>
          rw [alGet_alRemove_self] at hmem
          simp at hmem
        next =>
          rw [alGet_alSet_self] at hmem
          simp only [Option.getD_some] at hmem
          exact (membersOf_nodup hnd info.room_id).not_mem_erase hmem
    · have h2 : alGet (cmDisconnect s uid).1.user_info uid = none := by
        rw [h1]
        exact alGet_alRemove_self _ _
      exact cmDisconnect_absent h2

/-- A one-user registry state: A live in room1. -/
def cmWitnessState : CMState :=
  ⟨[("A", "w1")], [("A", ⟨"A", "alice", "room1", "w1"⟩)], [("room1", ["A"])]⟩

/-- Witness for C8: disconnecting A from the one-user state emits exactly
one `user_left` broadcast and the second disconnect is a no-op. -/
theorem C8_disconnect_idempotent_witness :
    user_left_count (cmDisconnect cmWitnessState "A").2 = 1 ∧
    cmDisconnect (cmDisconnect cmWitnessState "A").1 "A" =
      ((cmDisconnect cmWitnessState "A").1, []) := by
  have h := C8_disconnect_idempotent.2 cmWitnessState "A"
    ⟨"A", "alice", "room1", "w1"⟩ rfl
  exact ⟨h.1, h.2.2.2.2⟩

end MultiChat

namespace MultiChat

lemma alGet_ne_none_of_mem_keys {β : Type} {k : String} :
    ∀ {l : List (String × β)}, k ∈ l.map Prod.fst → alGet l k ≠ none := by
  intro l
  induction l with
  | nil => intro h; simp at h
  | cons x xs ih =>
    intro h
    simp only [alGet]
    by_cases hx : (x.1 == k) = true
    · rw [if_pos hx]
      simp
    · rw [if_neg hx]
      rw [List.map_cons] at h
      rcases List.mem_cons.mp h with h1 | h1
      · exact absurd (beq_iff_eq.mpr h1.symm) hx
      · exact ih h1

/-- C9 counterexample: after A connects to room1 and reconnects to room2,
the presence list of room1 still contains A although A's only live
connection is to room2; after A then disconnects, room1's presence list
still leads with the synthetic AI entry although no live human member
exists anywhere. -/
theorem C9_counterexample :
    get_active_users_info (runCM staleOps) "room1" =
      [("ai_styx", "Styx"), ("A", "alice")] ∧
    alGet (runCM staleOps).user_info "A" =
      some ⟨"A", "alice", "room2", "w2"⟩ ∧
    get_active_users_info (runCM (staleOps ++ [COp.disconnect "A"]))
        "room1" = [("ai_styx", "Styx")] ∧
    (runCM (staleOps ++ [COp.disconnect "A"])).user_info = [] := by
  refine ⟨by decide, by decide, by decide, by decide⟩

/-- C9 (amended): in every registry state satisfying the membership-mirror
invariant (with connection and info maps keyed identically), the
active-user list is the synthetic AI entry first iff the room has at
least one live member, followed by the human members sorted ascending by
lowercased username, and every listed human has a live connection to that
room.  In stale states reachable by a cross-room reconnect the guarantee
fails (see the counterexample). -/
theorem C9_presence_list :
    ∀ (s : CMState) (rid : String),
      MirrorInv s →
      s.connections.map Prod.fst = s.user_info.map Prod.fst →
      ∃ humans,
        get_active_users_info s rid =
          (if membersOf s rid ≠ [] then [("ai_styx", "Styx")] else []) ++
            humans ∧
        (humans = [] ↔ membersOf s rid = []) ∧
        humans.Pairwise (fun a b => usernameLe a b = true) ∧
        ∀ e ∈ humans, ∃ info,
          alGet s.user_info e.1 = some info ∧ info.room_id = rid ∧
          e.2 = info.username ∧ e.1 ∈ membersOf s rid ∧
          alGet s.connections e.1 ≠ none := by
  intro s rid hmir hkeys
  refine ⟨_, rfl, ?_, ?_, ?_⟩
  · constructor
    · intro h
      by_contra hne
      obtain ⟨u, hu⟩ := List.exists_mem_of_ne_nil _ hne
      obtain ⟨info, hinfo, _⟩ := hmir rid u hu
      have hm : (u, info.username) ∈ pySorted usernameLe
          ((membersOf s rid).filterMap fun uid =>
            (alGet s.user_info uid).map fun i => (uid, i.username)) := by
        refine mem_pySorted.mpr (List.mem_filterMap.mpr ⟨u, hu, ?_⟩)
        rw [hinfo]
        rfl
      rw [h] at hm
      exact absurd hm (List.not_mem_nil _)
    · intro h
      rw [h]
      rfl
  · refine pySorted_sorted ?_ ?_ _
    · intro a b c hab hbc
      simp only [usernameLe, decide_eq_true_eq] at hab hbc ⊢
      exact le_trans hab hbc
    · intro a b
      simp only [usernameLe, Bool.or_eq_true, decide_eq_true_eq]
      exact le_total _ _
  · intro e he
    obtain ⟨u, hu, hmap⟩ := List.mem_filterMap.mp (mem_pySorted.mp he)
    cases hget : alGet s.user_info u with
    | none =>
      rw [hget] at hmap
      simp at hmap
    | some info =>
      rw [hget] at hmap
      have he2 : e = (u, info.username) := by
        simpa using hmap.symm
      obtain ⟨info2, hinfo2, hroom2⟩ := hmir rid u hu
      rw [hget] at hinfo2
      have hi : info2 = info := by simpa using hinfo2.symm
      subst hi
      refine ⟨info2, ?_, hroom2, ?_, ?_, ?_⟩
      · rw [he2]
        exact hget
      · rw [he2]
      · rw [he2]
        exact hu
      · rw [he2]
        refine alGet_ne_none_of_mem_keys ?_
        rw [hkeys]
        exact List.mem_map_of_mem Prod.fst (alGet_mem hget)

/-- Witness for C9 (amended): the one-user state — AI entry first, then
alice, who holds a live connection to room1. -/
theorem C9_presence_list_witness :
    MirrorInv cmWitnessState ∧
    ∃ humans,
      get_active_users_info cmWitnessState "room1" =
        (if membersOf cmWitnessState "room1" ≠ [] then
          [("ai_styx", "Styx")] else []) ++ humans ∧
      (humans = [] ↔ membersOf cmWitnessState "room1" = []) ∧
      humans.Pairwise (fun a b => usernameLe a b = true) ∧
      ∀ e ∈ humans, ∃ info,
        alGet cmWitnessState.user_info e.1 = some info ∧
        info.room_id = "room1" ∧ e.2 = info.username ∧
        e.1 ∈ membersOf cmWitnessState "room1" ∧
        alGet cmWitnessState.connections e.1 ≠ none := by
  have hmir : MirrorInv cmWitnessState := by
    intro rid uid hu
    by_cases h : ("room1" == rid) = true
    · have hr : "room1" = rid := by simpa using h
      subst hr
      have hu2 : uid = "A" := by
        simpa [membersOf, cmWitnessState, alGet] using hu
      subst hu2
      exact ⟨⟨"A", "alice", "room1", "w1"⟩, rfl, rfl⟩
    · exfalso
      have : membersOf cmWitnessState rid = [] := by
        simp [membersOf, cmWitnessState, alGet, h]
      rw [this] at hu
      exact absurd hu (List.not_mem_nil uid)
  exact ⟨hmir, C9_presence_list cmWitnessState "room1" hmir rfl⟩

end MultiChat

namespace MultiChat

/-- Python `str.strip()` (whitespace at both ends). -/
def pyStrip (s : String) : String :=
  ⟨((s.data.dropWhile reIsSpace).reverse.dropWhile reIsSpace).reverse⟩

/-- The observable outcome of the HTTP call inside
`AIService.generate_response` (`backend/ai_service.py` lines 26-84): a
response with a status code and completion content, a timeout
(`httpx.TimeoutException`), or any other exception. -/
inductive GenOutcome where
  | httpResponse (status : Nat) (content : String)
  | timeout
  | exn
deriving DecidableEq, Repr

/-- `AIService.generate_response`: the stripped completion text on HTTP
200; on any other status, on timeout and on any exception one of three
fixed apology strings — the function never returns `None`. -/
def generate_response : GenOutcome → Option String
  | .httpResponse status content =>
    if status = 200 then some (pyStrip content)
    else some "Sorry, I\x27m having trouble processing your request right now."
  | .timeout =>
    some "Sorry, I\x27m taking too long to respond. Please try again."
  | .exn =>
    some "Sorry, I encountered an error while processing your message."

/-- The outcomes the spec calls GenerationFailure: AI collaborator error
or timeout. -/
def isGenerationFailure : GenOutcome → Bool
  | .httpResponse status _ => status ≠ 200
  | .timeout => true
  | .exn => true

/-- The externally observable actions of `handle_ai_response`
(`backend/main.py` lines 429-487): the typing-indicator broadcasts,
the persistence of the AI message, and its broadcast to the room. -/
inductive AIAction where
  | typing (flag : Bool)
  | storeAI (content : String)
  | broadcastAI (content : String)
deriving DecidableEq, Repr

/-- The try-body of `handle_ai_response` as per-step action lists in
program order: (1) broadcast typing=true, (2) `get_room`, (3) fetch
recent history, (4) `generate_response`, (5) store the AI message,
(6) broadcast the AI message, (7) broadcast typing=false.  Steps 5 and 6
run only when the returned text is truthy (`if ai_response:` — neither
None nor the empty string). -/
def aiSteps (outcome : GenOutcome) : List (List AIAction) :=
  [[AIAction.typing true],
   [],
   [],
   [],
   (match generate_response outcome with
    | some content => if content = "" then [] else [AIAction.storeAI content]
    | none => []),
   (match generate_response outcome with
    | some content =>
      if content = "" then [] else [AIAction.broadcastAI content]
    | none => []),
   [AIAction.typing false]]

/-- `handle_ai_response` with an abstract exception point: when step `k`
(0-based, within the try body) raises, the earlier steps' actions have
happened and the `except` handler broadcasts typing=false; with no
exception the whole try body runs. -/
def handle_ai_response (outcome : GenOutcome) (failAt : Option (Fin 7)) :
    List AIAction :=
  match failAt with
  | none => (aiSteps outcome).flatten
  | some k => ((aiSteps outcome).take k.val).flatten ++ [AIAction.typing false]

/-- Whether a trace broadcasts an ai-type message to the room. -/
def emitsAIMessage (actions : List AIAction) : Bool :=
  actions.any fun a =>
    match a with
    | AIAction.broadcastAI _ => true
    | _ => false

end MultiChat

namespace MultiChat

/-- C4 counterexample: a generation timeout is a GenerationFailure, yet
the handler persists and broadcasts an ai-type message carrying the
canned timeout apology. -/
theorem C4_counterexample :
    isGenerationFailure GenOutcome.timeout = true ∧
    emitsAIMessage (handle_ai_response GenOutcome.timeout none) = true ∧
    AIAction.broadcastAI
        "Sorry, I\x27m taking too long to respond. Please try again." ∈
      handle_ai_response GenOutcome.timeout none := by
  refine ⟨by decide, by decide, by decide⟩

/-- C4 (amended): whenever the AI generation collaborator fails or times
out, `generate_response` returns one of three fixed non-empty apology
strings instead of nothing, so the handler does persist and broadcast an
ai-type message — the fallback apology.  No AI message is emitted only
when the generation result is empty text. -/
theorem C4_failure_emits_fallback :
    ∀ outcome : GenOutcome, isGenerationFailure outcome = true →
      ∃ apology,
        generate_response outcome = some apology ∧
        apology ≠ "" ∧
        apology ∈
          ["Sorry, I\x27m having trouble processing your request right now.",
           "Sorry, I\x27m taking too long to respond. Please try again.",
           "Sorry, I encountered an error while processing your message."] ∧
        AIAction.storeAI apology ∈ handle_ai_response outcome none ∧
        AIAction.broadcastAI apology ∈ handle_ai_response outcome none := by
  intro outcome h
  have key : ∃ apology, generate_response outcome = some apology ∧
      apology ∈
        ["Sorry, I\x27m having trouble processing your request right now.",
         "Sorry, I\x27m taking too long to respond. Please try again.",
         "Sorry, I encountered an error while processing your message."] := by
    cases outcome with
    | httpResponse status content =>
      have hne : status ≠ 200 := by simpa [isGenerationFailure] using h
      refine ⟨"Sorry, I\x27m having trouble processing your request right now.",
        ?_, by simp⟩
      simp [generate_response, hne]
    | timeout =>
      exact ⟨"Sorry, I\x27m taking too long to respond. Please try again.",
        rfl, by simp⟩
    | exn =>
      exact ⟨"Sorry, I encountered an error while processing your message.",
        rfl, by simp⟩
  obtain ⟨apology, hgen, hmem⟩ := key
  have hne : apology ≠ "" := by
    simp only [List.mem_cons, List.not_mem_nil, or_false] at hmem
    rcases hmem with rfl | rfl | rfl <;> decide
  refine ⟨apology, hgen, hne, hmem, ?_, ?_⟩
  · simp [handle_ai_response, aiSteps, hgen, hne]
  · simp [handle_ai_response, aiSteps, hgen, hne]

/-- Witness for C4 (amended): the timeout outcome, where the emitted
message is the canned timeout apology. -/
theorem C4_failure_emits_fallback_witness :
    isGenerationFailure GenOutcome.timeout = true ∧
    ∃ apology,
      generate_response GenOutcome.timeout = some apology ∧
      apology ≠ "" ∧
      apology ∈
        ["Sorry, I\x27m having trouble processing your request right now.",
         "Sorry, I\x27m taking too long to respond. Please try again.",
         "Sorry, I encountered an error while processing your message."] ∧
      AIAction.storeAI apology ∈ handle_ai_response GenOutcome.timeout none ∧
      AIAction.broadcastAI apology ∈
        handle_ai_response GenOutcome.timeout none :=
  ⟨by decide, C4_failure_emits_fallback GenOutcome.timeout (by decide)⟩

/-- C7: on every execution path of the AI-response handler — success,
empty generation result, and an exception at any step of the try body —
an "AI typing = false" broadcast is emitted. -/
theorem C7_typing_cleared_always :
    ∀ (outcome : GenOutcome) (failAt : Option (Fin 7)),
      AIAction.typing false ∈ handle_ai_response outcome failAt := by
  intro outcome failAt
  cases failAt with
  | none =>
    refine List.mem_flatten.mpr ⟨[AIAction.typing false], ?_,
      List.mem_singleton_self _⟩
    simp [aiSteps]
  | some k =>
    exact List.mem_append_right _ (List.mem_singleton_self _)

end MultiChat

namespace MultiChat

/-- The methods the `ChatManager` class defines
(`backend/chat_manager.py`). -/
def chatManagerMethods : List String :=
  ["create_room", "get_room", "update_room", "delete_room",
   "store_message", "get_recent_messages", "get_message", "delete_message",
   "get_active_users", "add_user_to_room", "remove_user_from_room",
   "cleanup_expired_data", "get_room_stats", "can_user_access_room",
   "get_accessible_rooms", "assign_user_to_room", "unassign_user_from_room"]

/-- Persistent backend state seen by the clear-messages endpoint: the
room records and each room's message storage. -/
structure ServerStore where
  rooms : List (String × ChatRoom)
  roomMessages : List (String × RoomStore)

/-- The HTTP result of the endpoint. -/
inductive ClearResult where
  | ok (message : String)
  | httpError (status : Nat) (detail : String)
deriving DecidableEq, Repr

/-- `DELETE /rooms/{room_id}/messages` (`backend/main.py` lines 863-892):
403 unless the caller's role is admin, 404 when the room does not exist;
otherwise the handler calls `chat_manager.clear_room_messages` — a method
the `ChatManager` class does not define, so the attribute lookup raises
`AttributeError`, the blanket `except Exception` answers HTTP 500, and
the store is left untouched. -/
def clear_room_messages_endpoint (st : ServerStore) (userRole : String)
    (room_id : String) : ServerStore × ClearResult :=
  if userRole ≠ "admin" then
    (st, ClearResult.httpError 403 "Only admin can clear room messages")
  else
    match alGet st.rooms room_id with
    | none => (st, ClearResult.httpError 404 "Room not found")
    | some room =>
      if chatManagerMethods.contains "clear_room_messages" then
        (st, ClearResult.ok ("Messages cleared from room \x27" ++
          room.room_name ++ "\x27 successfully"))
      else
        (st, ClearResult.httpError 500 "Failed to clear room messages")

/-- C10: every admin request to clear an existing room's messages fails
with HTTP 500 — `ChatManager` defines no `clear_room_messages` method, so
the call raises and the blanket handler answers "Failed to clear room
messages" — and the backend state is returned unchanged. -/
theorem C10_clear_messages_always_fails :
    ∀ (st : ServerStore) (room_id : String) (room : ChatRoom),
      alGet st.rooms room_id = some room →
      clear_room_messages_endpoint st "admin" room_id =
        (st, ClearResult.httpError 500 "Failed to clear room messages") := by
  intro st rid room h
  unfold clear_room_messages_endpoint
  rw [if_neg (by simp)]
  simp only [h]
  rw [if_neg (by decide)]

/-- Witness for C10: a store holding only the default room — the admin
clear request on it answers 500 and leaves the store unchanged. -/
theorem C10_clear_messages_always_fails_witness :
    clear_room_messages_endpoint
        ⟨[("general", generalRoom)], []⟩ "admin" "general" =
      (⟨[("general", generalRoom)], []⟩,
        ClearResult.httpError 500 "Failed to clear room messages") :=
  C10_clear_messages_always_fails ⟨[("general", generalRoom)], []⟩
    "general" generalRoom (by decide)

end MultiChat
